import Mathlib

/-!
Shallow embedding of `generate_book_of_abstracts.py`, a script that reads a
table of conference submissions, keeps the rows whose `Decision` column equals
the literal `"Oral Presentation"`, and builds a document consisting of a title
page, a table of contents (one row per submission, with hyperlinks to the
abstract) and one styled "abstract card" per submission (with a bookmark and a
"back to contents" hyperlink).  The embedding keeps exactly the observable
structure the specification talks about: the text normalisation performed by
`clean_text`, the bookmarks (name and numeric id) and hyperlinks (text and
anchor) emitted for the table of contents and for each card, the column
validation, the row filter and the command-line defaults of `main`.
-/

set_option maxHeartbeats 1000000

/-! ### `clean_text` (lines 35-41 of the script)

`clean_text` does `re.sub(r'\s+', ' ', str(text)).strip()` after mapping a
missing (`pd.isna`) value to `""`.  Strings are modelled as `List Char` plus
the `String` wrapper; the whitespace class of `\s` / `str.strip` is modelled
by `isSpaceChar`. -/

/-- The whitespace class used by the script's regular expression `\s` and by
`str.strip`: space, tab, newline, carriage return, vertical tab, form feed. -/
def isSpaceChar (c : Char) : Bool :=
  c = ' ' || c = '\t' || c = '\n' || c = '\r' || c = '\x0b' || c = '\x0c'

/-- One left-to-right pass implementing `re.sub(r'\s+', ' ', text)`: each
maximal run of whitespace characters is replaced by a single space.  The
Boolean state records whether we are inside a whitespace run whose single
replacement space has already been emitted. -/
def collapseGo : Bool → List Char → List Char
  | _, [] => []
  | inRun, c :: rest =>
    if isSpaceChar c then
      if inRun then collapseGo true rest else ' ' :: collapseGo true rest
    else c :: collapseGo false rest

/-- `re.sub(r'\s+', ' ', text)` on the character list of `text`. -/
def collapseWS (l : List Char) : List Char :=
  collapseGo false l

/-- `str.lstrip()` for whitespace. -/
def lstripWS (l : List Char) : List Char :=
  l.dropWhile isSpaceChar

/-- `str.rstrip()` for whitespace. -/
def rstripWS (l : List Char) : List Char :=
  (l.reverse.dropWhile isSpaceChar).reverse

/-- `str.strip()` for whitespace (both ends). -/
def stripWS (l : List Char) : List Char :=
  rstripWS (lstripWS l)

/-- `clean_text` from the script: `None`/`NaN` becomes `""`; otherwise the
string is whitespace-collapsed by `re.sub(r'\s+', ' ', ·)` and then
stripped. -/
def clean_text : Option String → String
  | none => ""
  | some s => String.mk (stripWS (collapseWS s.data))

/-- The maximal runs of non-whitespace characters of a string, in order
(Python's `str.split()`). -/
def wordsWS : List Char → List (List Char)
  | [] => []
  | c :: rest =>
    if isSpaceChar c then wordsWS rest
    else (c :: rest.takeWhile (fun d => !isSpaceChar d)) ::
      wordsWS (rest.dropWhile (fun d => !isSpaceChar d))
termination_by l => l.length
decreasing_by
  · simp
  · have h := (List.dropWhile_sublist (fun d => !isSpaceChar d) (l := rest)).length_le
    simp only [List.length_cons]
    omega

/-- The specification's description of the normalisation, stated independently
of the code: every maximal run of whitespace collapses to a single space and
the ends are trimmed — i.e. the non-whitespace words joined by single
spaces. -/
def cleanTextSpec (s : String) : String :=
  String.mk (List.intercalate [' '] (wordsWS s.data))

/-! ### The document model

`create_book_of_abstracts` (lines 157-441) emits, in order: a bookmark named
`"TOC"` on the contents heading; for each row of `df_oral` a contents-table
row holding a hyperlink `str(sub_id) → SUB_{sub_id}`, a bookmark
`TOC_SUB_{sub_id}`, a hyperlink `title → SUB_{sub_id}` and a hyperlink
`authors → SUB_{sub_id}`; then for each row an abstract card holding a
bookmark `SUB_{sub_id}` on its header, the cleaned title, authors and
abstract, and a hyperlink `"↑ Back to Contents" → TOC_SUB_{sub_id}`.
Bookmark ids come from the `next_bid` counter, which starts at `0` and is
incremented before each use. -/

/-- One row of the input table.  `subId` is the `str()` rendering of the
`Submission ID` cell; the free-text cells and the decision cell may be
missing (`pd.isna`). -/
structure Row where
  subId : String
  title : Option String
  authors : Option String
  abstract : Option String
  decision : Option String
  deriving DecidableEq, Repr

/-- A named bookmark with its numeric `w:id` (from `next_bid`). -/
structure Bookmark where
  name : String
  bid : Nat
  deriving DecidableEq, Repr

/-- An internal hyperlink: displayed text and target anchor name. -/
structure Hyperlink where
  text : String
  anchor : String
  deriving DecidableEq, Repr

/-- One row of the table of contents, as emitted in the first loop (lines
297-329): hyperlinks in the id, title and authors cells and the row's
bookmark. -/
structure TocRow where
  idLink : Hyperlink
  rowBookmark : Bookmark
  titleLink : Hyperlink
  authorsLink : Hyperlink
  deriving DecidableEq, Repr

/-- One abstract card, as emitted in the second loop (lines 334-439): the
card's bookmark on the `Submission ID:` header, the header texts, the
cleaned title / authors / abstract and the back hyperlink. -/
structure AbstractCard where
  cardBookmark : Bookmark
  headerText : String
  trackText : String
  titleText : String
  authorsText : String
  abstractText : String
  backLink : Hyperlink
  deriving DecidableEq, Repr

/-- The observable output of `create_book_of_abstracts`: the contents heading
bookmark, the contents rows and the abstract cards, in emission order. -/
structure BookDoc where
  tocBookmark : Bookmark
  tocRows : List TocRow
  cards : List AbstractCard
  deriving DecidableEq, Repr

/-- The first loop of `create_book_of_abstracts` (lines 297-329): one contents
row per record, threading the `next_bid` counter (second component is the
counter after the loop). -/
def buildTocRows : List Row → Nat → List TocRow × Nat
  | [], b => ([], b)
  | row :: rest, b =>
    let r : TocRow :=
      { idLink := ⟨row.subId, "SUB_" ++ row.subId⟩
        rowBookmark := ⟨"TOC_SUB_" ++ row.subId, b + 1⟩
        titleLink := ⟨clean_text row.title, "SUB_" ++ row.subId⟩
        authorsLink := ⟨clean_text row.authors, "SUB_" ++ row.subId⟩ }
    let p := buildTocRows rest (b + 1)
    (r :: p.1, p.2)

/-- The second loop of `create_book_of_abstracts` (lines 334-439): one
abstract card per record, threading the `next_bid` counter. -/
def buildCards (track_title : String) : List Row → Nat → List AbstractCard × Nat
  | [], b => ([], b)
  | row :: rest, b =>
    let c : AbstractCard :=
      { cardBookmark := ⟨"SUB_" ++ row.subId, b + 1⟩
        headerText := "Submission ID: " ++ row.subId
        trackText := "Track: " ++ track_title
        titleText := clean_text row.title
        authorsText := clean_text row.authors
        abstractText := clean_text row.abstract
        backLink := ⟨"↑ Back to Contents", "TOC_SUB_" ++ row.subId⟩ }
    let q := buildCards track_title rest (b + 1)
    (c :: q.1, q.2)

/-- `create_book_of_abstracts(df_oral, track_title)`: the `"TOC"` bookmark
takes the first id from `next_bid` (that is, `1`), then the contents rows,
then the cards. -/
def create_book_of_abstracts (df_oral : List Row) (track_title : String) : BookDoc :=
  let b1 := 0 + 1
  let p := buildTocRows df_oral b1
  let q := buildCards track_title df_oral p.2
  { tocBookmark := ⟨"TOC", b1⟩
    tocRows := p.1
    cards := q.1 }

/-! ### `main` (lines 444-514): validation, filter, and CLI defaults -/

/-- The failure modes of `main` that are reached after the input table has
been read: missing required columns (reported with the exact list) and an
empty filtered set.  Each one makes the script `sys.exit(1)` before any
document is constructed. -/
inductive MainError where
  | missingColumns (cols : List String)
  | noOralPresentations
  deriving DecidableEq, Repr

/-- The input table: its column names and its rows. -/
structure InputTable where
  columns : List String
  rows : List Row
  deriving Repr

/-- `required_cols` from line 479. -/
def requiredCols : List String :=
  ["Submission ID", "Title", "Authors", "Abstract", "Decision"]

/-- `[col for col in required_cols if col not in df.columns]` (line 480). -/
def missingColsOf (columns : List String) : List String :=
  requiredCols.filter (fun c => !columns.contains c)

/-- The row filter `df['Decision'] == 'Oral Presentation'` (line 487); a
missing decision cell compares unequal. -/
def isOral (r : Row) : Bool :=
  r.decision == some "Oral Presentation"

/-- The part of `main` between reading the table and saving the file
(lines 479-496): column check, filter, empty-set check, then document
construction. -/
def runMain (tbl : InputTable) (track_title : String) : Except MainError BookDoc :=
  let missing_cols := missingColsOf tbl.columns
  if missing_cols ≠ [] then
    Except.error (MainError.missingColumns missing_cols)
  else
    let df_oral := tbl.rows.filter isOral
    if df_oral.length = 0 then
      Except.error MainError.noOralPresentations
    else
      Except.ok (create_book_of_abstracts df_oral track_title)

/-- The configuration `main` derives from the argument vector. -/
structure Config where
  input_file : String
  output_file : String
  track_title : String
  deriving DecidableEq, Repr

/-- The command-line handling of lines 447-457: three defaults, each
overridden by the positional argument at index 1, 2, 3 of `sys.argv` when
the vector is long enough (`argv.get 0` is the program name). -/
def parseArgs (argv : List String) : Config :=
  let input_file := "IMRC2025_submissions.xlsx"
  let output_file := "IMRC2025_Book_of_Abstracts.docx"
  let track_title := "FAE"
  let input_file := if 2 ≤ argv.length then argv.getD 1 input_file else input_file
  let output_file := if 3 ≤ argv.length then argv.getD 2 output_file else output_file
  let track_title := if 4 ≤ argv.length then argv.getD 3 track_title else track_title
  { input_file := input_file, output_file := output_file, track_title := track_title }

/-! ### Derived observations used by the theorems -/

/-- All bookmark names of the document, in emission order. -/
def bookmarkNames (d : BookDoc) : List String :=
  d.tocBookmark.name ::
    (d.tocRows.map (fun r => r.rowBookmark.name) ++
      d.cards.map (fun c => c.cardBookmark.name))

/-- All bookmark ids of the document, in emission order. -/
def bookmarkIds (d : BookDoc) : List Nat :=
  d.tocBookmark.bid ::
    (d.tocRows.map (fun r => r.rowBookmark.bid) ++
      d.cards.map (fun c => c.cardBookmark.bid))

/-- The id-independent content of a contents row. -/
def tocRowData (r : TocRow) : Hyperlink × String × Hyperlink × Hyperlink :=
  (r.idLink, r.rowBookmark.name, r.titleLink, r.authorsLink)

/-- The contents-row content determined by a record alone. -/
def tocRowOfRow (row : Row) : Hyperlink × String × Hyperlink × Hyperlink :=
  (⟨row.subId, "SUB_" ++ row.subId⟩, "TOC_SUB_" ++ row.subId,
    ⟨clean_text row.title, "SUB_" ++ row.subId⟩,
    ⟨clean_text row.authors, "SUB_" ++ row.subId⟩)

/-- The id-independent content of an abstract card. -/
def cardData (c : AbstractCard) :
    String × String × String × String × String × String × Hyperlink :=
  (c.cardBookmark.name, c.headerText, c.trackText, c.titleText, c.authorsText,
    c.abstractText, c.backLink)

/-- The card content determined by a record (and the track title) alone. -/
def cardOfRow (track_title : String) (row : Row) :
    String × String × String × String × String × String × Hyperlink :=
  ("SUB_" ++ row.subId, "Submission ID: " ++ row.subId, "Track: " ++ track_title,
    clean_text row.title, clean_text row.authors, clean_text row.abstract,
    ⟨"↑ Back to Contents", "TOC_SUB_" ++ row.subId⟩)

/-! ### Lemmas about the whitespace machinery -/

theorem collapseGo_true_eq (l : List Char) :
    collapseGo true l = collapseGo false (l.dropWhile isSpaceChar) := by
  induction l with
  | nil => rfl
  | cons c rest ih =>
    by_cases h : isSpaceChar c
    · rw [List.dropWhile_cons_of_pos h, ← ih]
      simp [collapseGo, h]
    · have hc : isSpaceChar c = false := by simpa using h
      rw [List.dropWhile_cons_of_neg h]
      simp [collapseGo, hc]

theorem collapseGo_false_append (w x : List Char)
    (hw : ∀ c ∈ w, isSpaceChar c = false) :
    collapseGo false (w ++ x) = w ++ collapseGo false x := by
  induction w with
  | nil => rfl
  | cons c t ih =>
    have hc : isSpaceChar c = false := hw c (by simp)
    have ih' := ih (fun d hd => hw d (by simp [hd]))
    simp only [List.cons_append, collapseGo, hc, Bool.false_eq_true, if_false,
      List.append_eq]
    rw [ih']

theorem stripWS_space_cons (x : List Char) : stripWS (' ' :: x) = stripWS x := by
  unfold stripWS lstripWS
  rw [List.dropWhile_cons_of_pos (by decide)]

theorem lstripWS_nonspace_cons (c : Char) (x : List Char)
    (hc : isSpaceChar c = false) : lstripWS (c :: x) = c :: x := by
  unfold lstripWS
  rw [List.dropWhile_cons_of_neg (by simp [hc])]

theorem rstripWS_append_space (x : List Char) :
    rstripWS (x ++ [' ']) = rstripWS x := by
  unfold rstripWS
  rw [List.reverse_append]
  simp only [List.reverse_cons, List.reverse_nil, List.nil_append, List.singleton_append]
  rw [List.dropWhile_cons_of_pos (by decide)]

theorem rstripWS_append (a b : List Char) (hb : rstripWS b ≠ []) :
    rstripWS (a ++ b) = a ++ rstripWS b := by
  unfold rstripWS at hb ⊢
  rw [List.reverse_append, List.dropWhile_append]
  have hne : (b.reverse.dropWhile isSpaceChar).isEmpty = false := by
    cases h : b.reverse.dropWhile isSpaceChar with
    | nil => exact absurd (by rw [h]; rfl) hb
    | cons y ys => rfl
  rw [hne]
  simp

theorem rstripWS_nonspace (x : List Char)
    (hx : ∀ c ∈ x, isSpaceChar c = false) : rstripWS x = x := by
  unfold rstripWS
  cases h : x.reverse with
  | nil =>
    have hx0 : x = [] := by simpa using congrArg List.reverse h
    simp [h, hx0]
  | cons c t =>
    have hc : isSpaceChar c = false := by
      refine hx c ?_
      have : c ∈ x.reverse := by rw [h]; exact List.mem_cons_self c t
      simpa using this
    have hcp : ¬ isSpaceChar c = true := by simp [hc]
    rw [List.dropWhile_cons_of_neg hcp, ← h, List.reverse_reverse]

theorem stripWS_nonspace (x : List Char)
    (hx : ∀ c ∈ x, isSpaceChar c = false) : stripWS x = x := by
  unfold stripWS
  have h1 : lstripWS x = x := by
    cases x with
    | nil => rfl
    | cons c t => exact lstripWS_nonspace_cons c t (hx c (by simp))
  rw [h1, rstripWS_nonspace x hx]

theorem intercalate_one (sep x : List Char) : List.intercalate sep [x] = x := by
  simp [List.intercalate]

theorem intercalate_two (sep x y : List Char) (t : List (List Char)) :
    List.intercalate sep (x :: y :: t) = x ++ sep ++ List.intercalate sep (y :: t) := by
  simp [List.intercalate, List.append_assoc]

theorem head_dropWhile_false {α : Type} {p : α → Bool} :
    ∀ (l : List α) (x : α) (xs : List α), l.dropWhile p = x :: xs → p x = false := by
  intro l
  induction l with
  | nil => intro x xs h; simp at h
  | cons a t ih =>
    intro x xs h
    by_cases ha : p a
    · rw [List.dropWhile_cons_of_pos ha] at h
      exact ih x xs h
    · rw [List.dropWhile_cons_of_neg ha] at h
      cases h
      simpa using ha

theorem wordsWS_dropWhile (l : List Char) :
    wordsWS (l.dropWhile isSpaceChar) = wordsWS l := by
  induction l with
  | nil => rfl
  | cons c rest ih =>
    by_cases h : isSpaceChar c
    · rw [List.dropWhile_cons_of_pos h, ih]
      simp [wordsWS, h]
    · rw [List.dropWhile_cons_of_neg h]

theorem isSpaceChar_space : isSpaceChar ' ' = true := by decide

theorem rstripWS_cons_nonspace (c : Char) (x : List Char)
    (hc : isSpaceChar c = false) : rstripWS (c :: x) = c :: rstripWS x := by
  unfold rstripWS
  rw [List.reverse_cons, List.dropWhile_append]
  cases h : (x.reverse.dropWhile isSpaceChar).isEmpty with
  | false =>
    simp only [h, Bool.false_eq_true, if_false]
    rw [List.reverse_append]
    simp
  | true =>
    have hnil : x.reverse.dropWhile isSpaceChar = [] := by
      simpa using h
    simp only [h, if_true, hnil]
    rw [List.dropWhile_cons_of_neg (by simp [hc])]
    simp

theorem stripWS_cons_nonspace (c : Char) (x : List Char)
    (hc : isSpaceChar c = false) : stripWS (c :: x) = c :: rstripWS x := by
  unfold stripWS
  rw [lstripWS_nonspace_cons c x hc, rstripWS_cons_nonspace c x hc]

theorem stripWS_collapse_fuel : ∀ (n : Nat) (l : List Char), l.length ≤ n →
    stripWS (collapseGo false l) = List.intercalate [' '] (wordsWS l) := by
  intro n
  induction n with
  | zero =>
    intro l hl
    have h0 : l = [] := List.length_eq_zero.mp (Nat.le_zero.mp hl)
    subst h0
    have ew : wordsWS ([] : List Char) = [] := by simp [wordsWS]
    rw [ew]
    rfl
  | succ n ih =>
    intro l hl
    cases l with
    | nil =>
      have ew : wordsWS ([] : List Char) = [] := by simp [wordsWS]
      rw [ew]
      rfl
    | cons c rest =>
      simp only [List.length_cons] at hl
      by_cases h : isSpaceChar c
      · have e1 : collapseGo false (c :: rest) = ' ' :: collapseGo true rest := by
          simp [collapseGo, h]
        have hlen : (rest.dropWhile isSpaceChar).length ≤ n := by
          have hle := (List.dropWhile_sublist isSpaceChar (l := rest)).length_le
          omega
        have e2 : wordsWS (c :: rest) = wordsWS rest := by
          simp [wordsWS, h]
        rw [e1, collapseGo_true_eq, stripWS_space_cons, ih _ hlen,
          wordsWS_dropWhile, e2]
      · have hc : isSpaceChar c = false := by simpa using h
        have hwns : ∀ d ∈ rest.takeWhile (fun d => !isSpaceChar d),
            isSpaceChar d = false := by
          intro d hd
          have hdp := List.mem_takeWhile_imp hd
          simpa using hdp
        have hsplit : rest.takeWhile (fun d => !isSpaceChar d) ++
            rest.dropWhile (fun d => !isSpaceChar d) = rest :=
          List.takeWhile_append_dropWhile (fun d => !isSpaceChar d) rest
        have e1 : collapseGo false (c :: rest)
            = c :: (rest.takeWhile (fun d => !isSpaceChar d) ++
                collapseGo false (rest.dropWhile (fun d => !isSpaceChar d))) := by
          conv_lhs => rw [← hsplit]
          simp only [collapseGo, hc, Bool.false_eq_true, if_false]
          rw [collapseGo_false_append _ _ hwns]
        have e2 : wordsWS (c :: rest)
            = (c :: rest.takeWhile (fun d => !isSpaceChar d)) ::
                wordsWS (rest.dropWhile (fun d => !isSpaceChar d)) := by
          simp [wordsWS, h]
        rw [e1, e2]
        cases hr1 : rest.dropWhile (fun d => !isSpaceChar d) with
        | nil =>
          simp only [collapseGo, List.append_nil]
          have ew : wordsWS ([] : List Char) = [] := by simp [wordsWS]
          rw [ew, intercalate_one, stripWS_cons_nonspace c _ hc,
            rstripWS_nonspace _ hwns]
        | cons d r2 =>
          have hd : (fun d => !isSpaceChar d) d = false :=
            head_dropWhile_false rest d r2 hr1
          have hds : isSpaceChar d = true := by simpa using hd
          have e3 : collapseGo false (d :: r2)
              = ' ' :: collapseGo false (r2.dropWhile isSpaceChar) := by
            simp [collapseGo, hds, collapseGo_true_eq]
          have e4 : wordsWS (d :: r2) = wordsWS (r2.dropWhile isSpaceChar) := by
            simp [wordsWS, hds, wordsWS_dropWhile]
          rw [e3, e4]
          have hlenrest : rest.length =
              (rest.takeWhile (fun d => !isSpaceChar d)).length + (d :: r2).length := by
            conv_lhs => rw [← hsplit, hr1]
            rw [List.length_append]
          have hlen : (r2.dropWhile isSpaceChar).length ≤ n := by
            have h1 := (List.dropWhile_sublist isSpaceChar (l := r2)).length_le
            simp only [List.length_cons] at hlenrest
            omega
          have ihm := ih _ hlen
          cases hm : r2.dropWhile isSpaceChar with
          | nil =>
            simp only [collapseGo]
            have ew : wordsWS ([] : List Char) = [] := by simp [wordsWS]
            rw [ew, intercalate_one, stripWS_cons_nonspace c _ hc,
              rstripWS_append_space, rstripWS_nonspace _ hwns]
          | cons e m2 =>
            rw [hm] at ihm
            have he : isSpaceChar e = false := head_dropWhile_false r2 e m2 hm
            have e5 : collapseGo false (e :: m2) = e :: collapseGo false m2 := by
              simp [collapseGo, he]
            have e6 : wordsWS (e :: m2)
                = (e :: m2.takeWhile (fun d => !isSpaceChar d)) ::
                    wordsWS (m2.dropWhile (fun d => !isSpaceChar d)) := by
              simp [wordsWS, he]
            have hlst : lstripWS (collapseGo false (e :: m2)) = collapseGo false (e :: m2) := by
              rw [e5]
              exact lstripWS_nonspace_cons e _ he
            have hrst : rstripWS (collapseGo false (e :: m2))
                = List.intercalate [' '] (wordsWS (e :: m2)) := by
              have h7 := ihm
              unfold stripWS at h7
              rw [hlst] at h7
              exact h7
            have hne : rstripWS (collapseGo false (e :: m2)) ≠ [] := by
              rw [hrst, e6]
              cases hw2 : wordsWS (m2.dropWhile (fun d => !isSpaceChar d)) with
              | nil => rw [intercalate_one]; simp
              | cons a b => rw [intercalate_two]; simp
            rw [stripWS_cons_nonspace c _ hc]
            have hre : rest.takeWhile (fun d => !isSpaceChar d) ++
                ' ' :: collapseGo false (e :: m2)
                = (rest.takeWhile (fun d => !isSpaceChar d) ++ [' ']) ++
                    collapseGo false (e :: m2) := by
              simp
            rw [hre, rstripWS_append _ _ hne, hrst, e6, intercalate_two]
            have hlast : rstripWS (rest.takeWhile (fun d => !isSpaceChar d) ++ [' '])
                = rest.takeWhile (fun d => !isSpaceChar d) := by
              rw [rstripWS_append_space, rstripWS_nonspace _ hwns]
            simp [List.append_assoc]

/-- The words of any string are nonempty and whitespace-free. -/
theorem wordsWS_facts : ∀ (n : Nat) (l : List Char), l.length ≤ n →
    ∀ w ∈ wordsWS l, w ≠ [] ∧ ∀ c ∈ w, isSpaceChar c = false := by
  intro n
  induction n with
  | zero =>
    intro l hl
    have h0 : l = [] := List.length_eq_zero.mp (Nat.le_zero.mp hl)
    subst h0
    intro w hw
    simp [wordsWS] at hw
  | succ n ih =>
    intro l hl
    cases l with
    | nil =>
      intro w hw
      simp [wordsWS] at hw
    | cons c rest =>
      simp only [List.length_cons] at hl
      by_cases h : isSpaceChar c
      · have e : wordsWS (c :: rest) = wordsWS rest := by simp [wordsWS, h]
        rw [e]
        exact ih rest (by omega)
      · have hc : isSpaceChar c = false := by simpa using h
        have e : wordsWS (c :: rest)
            = (c :: rest.takeWhile (fun d => !isSpaceChar d)) ::
                wordsWS (rest.dropWhile (fun d => !isSpaceChar d)) := by
          simp [wordsWS, h]
        rw [e]
        intro w hw
        rcases List.mem_cons.mp hw with h1 | h2
        · subst h1
          refine ⟨by simp, ?_⟩
          intro d hd
          rcases List.mem_cons.mp hd with h3 | h4
          · subst h3; exact hc
          · have hdp := List.mem_takeWhile_imp h4
            simpa using hdp
        · have hlen : (rest.dropWhile (fun d => !isSpaceChar d)).length ≤ n := by
            have hle := (List.dropWhile_sublist (fun d => !isSpaceChar d) (l := rest)).length_le
            omega
          exact ih _ hlen w h2

/-- Prepending a whitespace-free word and a space adds the word to the front
of the word list. -/
theorem wordsWS_word_cons (a : Char) (w x : List Char)
    (ha : isSpaceChar a = false) (hw : ∀ d ∈ w, isSpaceChar d = false) :
    wordsWS ((a :: w) ++ ' ' :: x) = (a :: w) :: wordsWS x := by
  have hALL : ∀ d ∈ w, ((fun d => !isSpaceChar d) d) = true := by
    intro d hd
    simp [hw d hd]
  have e : wordsWS (a :: (w ++ ' ' :: x))
      = (a :: (w ++ ' ' :: x).takeWhile (fun d => !isSpaceChar d)) ::
          wordsWS ((w ++ ' ' :: x).dropWhile (fun d => !isSpaceChar d)) := by
    simp [wordsWS, ha]
  have hneg : ¬ ((fun d => !isSpaceChar d) ' ' = true) := by decide
  have ht : (w ++ ' ' :: x).takeWhile (fun d => !isSpaceChar d) = w := by
    rw [List.takeWhile_append_of_pos hALL,
      List.takeWhile_cons_of_neg (p := fun d => !isSpaceChar d) hneg]
    simp
  have hd : (w ++ ' ' :: x).dropWhile (fun d => !isSpaceChar d) = ' ' :: x := by
    rw [List.dropWhile_append_of_pos hALL,
      List.dropWhile_cons_of_neg (p := fun d => !isSpaceChar d) hneg]
  have hsp : wordsWS (' ' :: x) = wordsWS x := by
    simp [wordsWS, isSpaceChar_space]
  rw [show (a :: w) ++ ' ' :: x = a :: (w ++ ' ' :: x) from rfl, e, ht, hd, hsp]

/-- Splitting the space-joined list of nonempty whitespace-free words
recovers the list. -/
theorem wordsWS_intercalate (W : List (List Char))
    (hW : ∀ w ∈ W, w ≠ [] ∧ ∀ c ∈ w, isSpaceChar c = false) :
    wordsWS (List.intercalate [' '] W) = W := by
  induction W with
  | nil => simp [List.intercalate, wordsWS]
  | cons w W' ih =>
    obtain ⟨hne, hns⟩ := hW w (by simp)
    obtain ⟨a, w', rfl⟩ : ∃ a w', w = a :: w' := by
      cases w with
      | nil => exact absurd rfl hne
      | cons a w' => exact ⟨a, w', rfl⟩
    have ha : isSpaceChar a = false := hns a (by simp)
    have hw' : ∀ d ∈ w', isSpaceChar d = false := fun d hd => hns d (by simp [hd])
    cases W' with
    | nil =>
      rw [intercalate_one]
      have e : wordsWS (a :: w')
          = (a :: w'.takeWhile (fun d => !isSpaceChar d)) ::
              wordsWS (w'.dropWhile (fun d => !isSpaceChar d)) := by
        simp [wordsWS, ha]
      have ht : w'.takeWhile (fun d => !isSpaceChar d) = w' :=
        List.takeWhile_eq_self_iff.mpr (fun d hd => by simp [hw' d hd])
      have hdr : w'.dropWhile (fun d => !isSpaceChar d) = [] :=
        List.dropWhile_eq_nil_iff.mpr (fun d hd => by simp [hw' d hd])
      rw [e, ht, hdr]
      simp [wordsWS]
    | cons w2 W'' =>
      rw [intercalate_two]
      have hsh : (a :: w') ++ [' '] ++ List.intercalate [' '] (w2 :: W'')
          = (a :: w') ++ ' ' :: List.intercalate [' '] (w2 :: W'') := by
        simp
      rw [hsh, wordsWS_word_cons a w' _ ha hw',
        ih (fun u hu => hW u (by simp [hu]))]

/-- `clean_text` on a present value agrees with the specification's
"collapse runs, trim ends" description. -/
theorem clean_text_some_eq_spec (s : String) :
    clean_text (some s) = cleanTextSpec s := by
  unfold clean_text cleanTextSpec collapseWS
  exact congrArg String.mk (stripWS_collapse_fuel s.data.length s.data (Nat.le_refl _))

/-! ### Lemmas about the document builder -/

theorem buildTocRows_fst_map (rows : List Row) : ∀ b : Nat,
    (buildTocRows rows b).1.map tocRowData = rows.map tocRowOfRow := by
  induction rows with
  | nil => intro b; rfl
  | cons r rest ih =>
    intro b
    simp [buildTocRows, tocRowData, tocRowOfRow, ih (b + 1)]

theorem buildTocRows_snd (rows : List Row) : ∀ b : Nat,
    (buildTocRows rows b).2 = b + rows.length := by
  induction rows with
  | nil => intro b; simp [buildTocRows]
  | cons r rest ih =>
    intro b
    simp [buildTocRows, ih (b + 1)]
    omega

theorem buildTocRows_fst_bids (rows : List Row) : ∀ b : Nat,
    (buildTocRows rows b).1.map (fun r => r.rowBookmark.bid)
      = List.range' (b + 1) rows.length := by
  induction rows with
  | nil => intro b; simp [buildTocRows]
  | cons r rest ih =>
    intro b
    simp only [List.length_cons]
    rw [List.range'_succ]
    simp [buildTocRows, ih (b + 1)]

theorem buildCards_fst_map (track : String) (rows : List Row) : ∀ b : Nat,
    (buildCards track rows b).1.map cardData = rows.map (cardOfRow track) := by
  induction rows with
  | nil => intro b; rfl
  | cons r rest ih =>
    intro b
    simp [buildCards, cardData, cardOfRow, ih (b + 1)]

theorem buildCards_snd (track : String) (rows : List Row) : ∀ b : Nat,
    (buildCards track rows b).2 = b + rows.length := by
  induction rows with
  | nil => intro b; simp [buildCards]
  | cons r rest ih =>
    intro b
    simp [buildCards, ih (b + 1)]
    omega

theorem buildCards_fst_bids (track : String) (rows : List Row) : ∀ b : Nat,
    (buildCards track rows b).1.map (fun c => c.cardBookmark.bid)
      = List.range' (b + 1) rows.length := by
  induction rows with
  | nil => intro b; simp [buildCards]
  | cons r rest ih =>
    intro b
    simp only [List.length_cons]
    rw [List.range'_succ]
    simp [buildCards, ih (b + 1)]

theorem create_book_tocRows_map (rows : List Row) (track : String) :
    (create_book_of_abstracts rows track).tocRows.map tocRowData
      = rows.map tocRowOfRow := by
  simp [create_book_of_abstracts, buildTocRows_fst_map]

theorem create_book_cards_map (rows : List Row) (track : String) :
    (create_book_of_abstracts rows track).cards.map cardData
      = rows.map (cardOfRow track) := by
  simp [create_book_of_abstracts, buildCards_fst_map]

theorem create_book_tocRows_length (rows : List Row) (track : String) :
    (create_book_of_abstracts rows track).tocRows.length = rows.length := by
  have h := congrArg List.length (create_book_tocRows_map rows track)
  simpa using h

theorem create_book_cards_length (rows : List Row) (track : String) :
    (create_book_of_abstracts rows track).cards.length = rows.length := by
  have h := congrArg List.length (create_book_cards_map rows track)
  simpa using h

theorem create_book_card_names (rows : List Row) (track : String) :
    (create_book_of_abstracts rows track).cards.map (fun c => c.cardBookmark.name)
      = rows.map (fun r => "SUB_" ++ r.subId) := by
  have h := congrArg (List.map Prod.fst) (create_book_cards_map rows track)
  simpa [List.map_map, cardData, cardOfRow, Function.comp] using h

/-- The branch structure of `main` after reading the table. -/
theorem runMain_eq (tbl : InputTable) (track : String) :
    runMain tbl track =
      if missingColsOf tbl.columns ≠ [] then
        Except.error (MainError.missingColumns (missingColsOf tbl.columns))
      else if (tbl.rows.filter isOral).length = 0 then
        Except.error MainError.noOralPresentations
      else
        Except.ok (create_book_of_abstracts (tbl.rows.filter isOral) track) := rfl

/-- The bookmark ids of a generated document are exactly `1, 2, …, 2n+1`. -/
theorem create_book_bids (rows : List Row) (track : String) :
    bookmarkIds (create_book_of_abstracts rows track)
      = List.range' 1 (2 * rows.length + 1) := by
  unfold bookmarkIds create_book_of_abstracts
  simp only [buildTocRows_fst_bids, buildCards_fst_bids, buildTocRows_snd]
  norm_num
  rw [show 1 + rows.length + 1 = 2 + rows.length from by omega,
    List.range'_append_1 2 rows.length rows.length,
    show 2 * rows.length + 1 = (rows.length + rows.length) + 1 from by omega,
    List.range'_succ]

/-! ### Concrete example data used by the witnesses -/

/-- An oral-presentation row with messy whitespace. -/
def exRow1 : Row :=
  ⟨"101", some "  A   Title ", some "Ann  Author", some " The  abstract ",
    some "Oral Presentation"⟩

/-- A second oral-presentation row. -/
def exRow2 : Row :=
  ⟨"102", some "Second Title", some "Bob", some "Text body",
    some "Oral Presentation"⟩

/-- A rejected (poster) row. -/
def exRowPoster : Row :=
  ⟨"103", some "Poster Title", some "Cam", some "Poster text", some "Poster"⟩

/-- A row with every optional cell missing. -/
def exRowBlank : Row := ⟨"104", none, none, none, none⟩

/-- Two oral rows. -/
def exRows : List Row := [exRow1, exRow2]

/-- A well-formed table mixing oral and non-oral rows. -/
def exTable : InputTable :=
  ⟨requiredCols, [exRow1, exRowPoster, exRow2, exRowBlank]⟩

/-! ### The claims -/

/-- C4: `clean_text` collapses every maximal run of whitespace characters to
a single space and trims leading and trailing whitespace (equivalently, it
joins the non-whitespace words of the input with single spaces), and a
missing (null) value yields the empty string. -/
theorem clean_text_normalizes :
    clean_text none = "" ∧ ∀ s : String, clean_text (some s) = cleanTextSpec s :=
  ⟨rfl, clean_text_some_eq_spec⟩

/-- C5: the whitespace normalisation is idempotent — applying `clean_text`
to its own output returns the output unchanged. -/
theorem clean_text_idempotent (s : String) :
    clean_text (some (clean_text (some s))) = clean_text (some s) := by
  rw [clean_text_some_eq_spec s, clean_text_some_eq_spec (cleanTextSpec s)]
  show String.mk (List.intercalate [' ']
      (wordsWS (List.intercalate [' '] (wordsWS s.data)))) = _
  rw [wordsWS_intercalate (wordsWS s.data)
    (wordsWS_facts s.data.length s.data (Nat.le_refl _))]
  rfl

/-- C10: the bookmark ids drawn from the `next_bid` counter form the strictly
increasing sequence `1, 2, …, 2n+1` for `n` records — one id for the
contents heading, one per contents row, one per abstract card — and never
repeat. -/
theorem create_book_bookmark_ids (rows : List Row) (track : String) :
    bookmarkIds (create_book_of_abstracts rows track)
      = List.range' 1 (2 * rows.length + 1)
  ∧ (bookmarkIds (create_book_of_abstracts rows track)).Nodup := by
  refine ⟨create_book_bids rows track, ?_⟩
  rw [create_book_bids rows track]
  exact List.nodup_range' 1 (2 * rows.length + 1)

/-- C3: for every non-empty record collection, `create_book_of_abstracts`
emits exactly one contents row and exactly one abstract card per record, and
both sequences follow the input order. -/
theorem create_book_one_per_record (df_oral : List Row) (track_title : String)
    (hne : df_oral ≠ []) :
    (create_book_of_abstracts df_oral track_title).tocRows.length = df_oral.length
  ∧ (create_book_of_abstracts df_oral track_title).cards.length = df_oral.length
  ∧ (create_book_of_abstracts df_oral track_title).tocRows.map tocRowData
      = df_oral.map tocRowOfRow
  ∧ (create_book_of_abstracts df_oral track_title).cards.map cardData
      = df_oral.map (cardOfRow track_title) :=
  ⟨create_book_tocRows_length df_oral track_title,
    create_book_cards_length df_oral track_title,
    create_book_tocRows_map df_oral track_title,
    create_book_cards_map df_oral track_title⟩

/-- Witness for C3 at a concrete two-record collection. -/
theorem create_book_one_per_record_witness :
    exRows ≠ []
  ∧ ((create_book_of_abstracts exRows "FAE").tocRows.length = exRows.length
      ∧ (create_book_of_abstracts exRows "FAE").cards.length = exRows.length
      ∧ (create_book_of_abstracts exRows "FAE").tocRows.map tocRowData
          = exRows.map tocRowOfRow
      ∧ (create_book_of_abstracts exRows "FAE").cards.map cardData
          = exRows.map (cardOfRow "FAE")) :=
  ⟨by decide, create_book_one_per_record exRows "FAE" (by decide)⟩

/-- C1: a row contributes a contents row and an abstract card to the output
document if and only if its decision column equals the literal
`"Oral Presentation"`.  On a successful run the emitted contents rows and
cards are exactly the images of the filtered rows, in order, so a row with
any other status produces no output section; and such rows cause no error —
deleting them from the table leaves the run's result unchanged. -/
theorem runMain_ok_filters_oral (tbl : InputTable) (track : String) :
    runMain ⟨tbl.columns, tbl.rows.filter isOral⟩ track = runMain tbl track
  ∧ ∀ doc : BookDoc, runMain tbl track = Except.ok doc →
      doc.tocRows.map tocRowData = (tbl.rows.filter isOral).map tocRowOfRow
    ∧ doc.cards.map cardData = (tbl.rows.filter isOral).map (cardOfRow track) := by
  constructor
  · rw [runMain_eq, runMain_eq]
    simp only [List.filter_filter]
    have hp : (fun a => isOral a && isOral a) = isOral := by
      funext a
      exact Bool.and_self (isOral a)
    rw [hp]
  · intro doc h
    rw [runMain_eq] at h
    split at h
    · exact absurd h (by simp)
    · split at h
      · exact absurd h (by simp)
      · have hd := Except.ok.inj h
        subst hd
        exact ⟨create_book_tocRows_map _ track, create_book_cards_map _ track⟩

/-- Witness for C1 at a concrete table mixing oral, poster and blank rows. -/
theorem runMain_ok_filters_oral_witness :
    runMain ⟨exTable.columns, exTable.rows.filter isOral⟩ "FAE" = runMain exTable "FAE"
  ∧ runMain exTable "FAE"
      = Except.ok (create_book_of_abstracts (exTable.rows.filter isOral) "FAE")
  ∧ (create_book_of_abstracts (exTable.rows.filter isOral) "FAE").tocRows.map tocRowData
      = (exTable.rows.filter isOral).map tocRowOfRow
  ∧ (create_book_of_abstracts (exTable.rows.filter isOral) "FAE").cards.map cardData
      = (exTable.rows.filter isOral).map (cardOfRow "FAE") := by
  have h := runMain_ok_filters_oral exTable "FAE"
  have hok : runMain exTable "FAE"
      = Except.ok (create_book_of_abstracts (exTable.rows.filter isOral) "FAE") := by
    rfl
  exact ⟨h.1, hok, (h.2 _ hok).1, (h.2 _ hok).2⟩

/-- C6: when required columns are missing, the run fails before any document
is constructed, reporting exactly the missing column names: the reported
list contains a column name precisely when it is required and absent. -/
theorem runMain_missing_columns (tbl : InputTable) (track : String)
    (h : missingColsOf tbl.columns ≠ []) :
    runMain tbl track
      = Except.error (MainError.missingColumns (missingColsOf tbl.columns))
  ∧ ∀ c : String, c ∈ missingColsOf tbl.columns ↔ (c ∈ requiredCols ∧ c ∉ tbl.columns) := by
  constructor
  · rw [runMain_eq, if_pos h]
  · intro c
    simp [missingColsOf, List.mem_filter]

/-- Witness for C6 at a table that lacks the `Decision` column. -/
theorem runMain_missing_columns_witness :
    missingColsOf ["Submission ID", "Title", "Authors", "Abstract"] ≠ []
  ∧ runMain ⟨["Submission ID", "Title", "Authors", "Abstract"], [exRow1]⟩ "FAE"
      = Except.error (MainError.missingColumns
          (missingColsOf ["Submission ID", "Title", "Authors", "Abstract"]))
  ∧ ("Decision" ∈ missingColsOf ["Submission ID", "Title", "Authors", "Abstract"]
      ↔ ("Decision" ∈ requiredCols
          ∧ "Decision" ∉ ["Submission ID", "Title", "Authors", "Abstract"])) := by
  have h := runMain_missing_columns
    ⟨["Submission ID", "Title", "Authors", "Abstract"], [exRow1]⟩ "FAE" (by decide)
  exact ⟨by decide, h.1, h.2 "Decision"⟩

/-- C7: when no row's decision equals the target literal, the run fails with
an error and produces no document — the empty filtered set is never
rendered. -/
theorem runMain_empty_filter (tbl : InputTable) (track : String)
    (hcols : missingColsOf tbl.columns = [])
    (hempty : tbl.rows.filter isOral = []) :
    runMain tbl track = Except.error MainError.noOralPresentations := by
  rw [runMain_eq, if_neg (by simp [hcols]), if_pos (by simp [hempty])]

/-- Witness for C7 at a table whose rows are all non-oral. -/
theorem runMain_empty_filter_witness :
    missingColsOf requiredCols = []
  ∧ [exRowPoster, exRowBlank].filter isOral = []
  ∧ runMain ⟨requiredCols, [exRowPoster, exRowBlank]⟩ "FAE"
      = Except.error MainError.noOralPresentations :=
  ⟨by decide, by decide,
    runMain_empty_filter ⟨requiredCols, [exRowPoster, exRowBlank]⟩ "FAE"
      (by decide) (by decide)⟩

/-- Pointwise consequence of an equality of mapped lists. -/
theorem map_get_of_map_eq {α β γ : Type} (f : α → γ) (g : β → γ)
    (l : List α) (m : List β) (h : l.map f = m.map g)
    (i : Nat) (hl : i < l.length) (hm : i < m.length) :
    f (l.get ⟨i, hl⟩) = g (m.get ⟨i, hm⟩) := by
  have e := congrArg (fun t => t[i]?) h
  simp only [List.getElem?_map] at e
  rw [List.getElem?_eq_getElem hl, List.getElem?_eq_getElem hm] at e
  simp only [Option.map_some'] at e
  have e2 := Option.some.inj e
  simpa [List.get_eq_getElem] using e2

/-- C2: for every included record, the abstract card carries the bookmark
`SUB_id`; the identifier, title and authors hyperlinks of the record's
contents row all target exactly that bookmark; the contents row carries the
bookmark `TOC_SUB_id`; and the card's "back to contents" hyperlink targets
exactly that row bookmark — the pair is mutually reachable and the back link
returns to the row, not to the top of the contents. -/
theorem create_book_links_round_trip (rows : List Row) (track : String) (i : Nat)
    (h1 : i < (create_book_of_abstracts rows track).tocRows.length)
    (h2 : i < (create_book_of_abstracts rows track).cards.length)
    (h3 : i < rows.length) :
    ((create_book_of_abstracts rows track).cards.get ⟨i, h2⟩).cardBookmark.name
        = "SUB_" ++ (rows.get ⟨i, h3⟩).subId
  ∧ ((create_book_of_abstracts rows track).tocRows.get ⟨i, h1⟩).idLink.anchor
        = ((create_book_of_abstracts rows track).cards.get ⟨i, h2⟩).cardBookmark.name
  ∧ ((create_book_of_abstracts rows track).tocRows.get ⟨i, h1⟩).titleLink.anchor
        = ((create_book_of_abstracts rows track).cards.get ⟨i, h2⟩).cardBookmark.name
  ∧ ((create_book_of_abstracts rows track).tocRows.get ⟨i, h1⟩).authorsLink.anchor
        = ((create_book_of_abstracts rows track).cards.get ⟨i, h2⟩).cardBookmark.name
  ∧ ((create_book_of_abstracts rows track).tocRows.get ⟨i, h1⟩).rowBookmark.name
        = "TOC_SUB_" ++ (rows.get ⟨i, h3⟩).subId
  ∧ ((create_book_of_abstracts rows track).cards.get ⟨i, h2⟩).backLink.anchor
        = ((create_book_of_abstracts rows track).tocRows.get ⟨i, h1⟩).rowBookmark.name := by
  have eR := map_get_of_map_eq tocRowData tocRowOfRow _ rows
    (create_book_tocRows_map rows track) i h1 h3
  have eC := map_get_of_map_eq cardData (cardOfRow track) _ rows
    (create_book_cards_map rows track) i h2 h3
  simp only [tocRowData, tocRowOfRow, Prod.mk.injEq] at eR
  simp only [cardData, cardOfRow, Prod.mk.injEq] at eC
  obtain ⟨eId, eBm, eTi, eAu⟩ := eR
  obtain ⟨cN, cH, cT, cTi, cAu, cAb, cB⟩ := eC
  refine ⟨cN, ?_, ?_, ?_, eBm, ?_⟩
  · rw [eId, cN]
  · rw [eTi, cN]
  · rw [eAu, cN]
  · rw [cB, eBm]

/-- Witness for C2: the first record of a concrete two-record collection. -/
theorem create_book_links_round_trip_witness :
    0 < (create_book_of_abstracts exRows "FAE").tocRows.length
  ∧ 0 < (create_book_of_abstracts exRows "FAE").cards.length
  ∧ 0 < exRows.length
  ∧ ((create_book_of_abstracts exRows "FAE").cards.get ⟨0, by decide⟩).cardBookmark.name
      = "SUB_" ++ (exRows.get ⟨0, by decide⟩).subId
  ∧ ((create_book_of_abstracts exRows "FAE").tocRows.get ⟨0, by decide⟩).idLink.anchor
      = ((create_book_of_abstracts exRows "FAE").cards.get ⟨0, by decide⟩).cardBookmark.name
  ∧ ((create_book_of_abstracts exRows "FAE").tocRows.get ⟨0, by decide⟩).titleLink.anchor
      = ((create_book_of_abstracts exRows "FAE").cards.get ⟨0, by decide⟩).cardBookmark.name
  ∧ ((create_book_of_abstracts exRows "FAE").tocRows.get ⟨0, by decide⟩).authorsLink.anchor
      = ((create_book_of_abstracts exRows "FAE").cards.get ⟨0, by decide⟩).cardBookmark.name
  ∧ ((create_book_of_abstracts exRows "FAE").tocRows.get ⟨0, by decide⟩).rowBookmark.name
      = "TOC_SUB_" ++ (exRows.get ⟨0, by decide⟩).subId
  ∧ ((create_book_of_abstracts exRows "FAE").cards.get ⟨0, by decide⟩).backLink.anchor
      = ((create_book_of_abstracts exRows "FAE").tocRows.get ⟨0, by decide⟩).rowBookmark.name := by
  have h := create_book_links_round_trip exRows "FAE" 0 (by decide) (by decide) (by decide)
  exact ⟨by decide, by decide, by decide,
    h.1, h.2.1, h.2.2.1, h.2.2.2.1, h.2.2.2.2.1, h.2.2.2.2.2⟩

/-- C8: two records with the same identifier do not make document generation
fail — the document is still built with one card per record — but the same
bookmark name is then emitted more than once (an anchor collision). -/
theorem create_book_duplicate_ids (rows : List Row) (track : String) (i j : Nat)
    (hi : i < rows.length) (hj : j < rows.length) (hij : i ≠ j)
    (hid : (rows.get ⟨i, hi⟩).subId = (rows.get ⟨j, hj⟩).subId) :
    (create_book_of_abstracts rows track).cards.length = rows.length
  ∧ ¬ (bookmarkNames (create_book_of_abstracts rows track)).Nodup := by
  refine ⟨create_book_cards_length rows track, ?_⟩
  intro hnd
  unfold bookmarkNames at hnd
  have h2 := (List.nodup_cons.mp hnd).2
  have h3 := List.Nodup.of_append_right h2
  rw [create_book_card_names] at h3
  have hinj := List.nodup_iff_injective_get.mp h3
  simp only [List.get_eq_getElem] at hid
  have e : ((rows.map (fun r => "SUB_" ++ r.subId)).get ⟨i, by simpa using hi⟩)
      = ((rows.map (fun r => "SUB_" ++ r.subId)).get ⟨j, by simpa using hj⟩) := by
    simp only [List.get_eq_getElem, List.getElem_map]
    rw [hid]
  have hfin := hinj e
  have hij2 : i = j := by
    simpa using congrArg Fin.val hfin
  exact hij hij2

/-- Witness for C8: the same record twice. -/
theorem create_book_duplicate_ids_witness :
    (0 : Nat) ≠ 1
  ∧ (([exRow1, exRow1] : List Row).get ⟨0, by decide⟩).subId
      = (([exRow1, exRow1] : List Row).get ⟨1, by decide⟩).subId
  ∧ (create_book_of_abstracts [exRow1, exRow1] "FAE").cards.length
      = ([exRow1, exRow1] : List Row).length
  ∧ ¬ (bookmarkNames (create_book_of_abstracts [exRow1, exRow1] "FAE")).Nodup := by
  have h := create_book_duplicate_ids [exRow1, exRow1] "FAE" 0 1
    (by decide) (by decide) (by decide) (by decide)
  exact ⟨by decide, by decide, h.1, h.2⟩

/-- C9: the command line consists of three positional arguments — input
path, output path, display label — each falling back to its default when
absent: argument `i` of the vector (when present) determines exactly the
`i`-th setting, and each missing argument leaves its own default in force. -/
theorem parseArgs_positional (argv : List String) :
    ((parseArgs argv).input_file =
      if h2 : 2 ≤ argv.length then argv.get ⟨1, by omega⟩
      else "IMRC2025_submissions.xlsx")
  ∧ ((parseArgs argv).output_file =
      if h3 : 3 ≤ argv.length then argv.get ⟨2, by omega⟩
      else "IMRC2025_Book_of_Abstracts.docx")
  ∧ ((parseArgs argv).track_title =
      if h4 : 4 ≤ argv.length then argv.get ⟨3, by omega⟩
      else "FAE") := by
  refine ⟨?_, ?_, ?_⟩
  · rw [show (parseArgs argv).input_file
      = if 2 ≤ argv.length then argv.getD 1 "IMRC2025_submissions.xlsx"
        else "IMRC2025_submissions.xlsx" from rfl]
    by_cases h : 2 ≤ argv.length
    · have hb : 1 < argv.length := by omega
      rw [if_pos h, dif_pos h, List.getD_eq_getElem?_getD,
        List.getElem?_eq_getElem hb]
      simp [List.get_eq_getElem]
    · rw [if_neg h, dif_neg h]
  · rw [show (parseArgs argv).output_file
      = if 3 ≤ argv.length then argv.getD 2 "IMRC2025_Book_of_Abstracts.docx"
        else "IMRC2025_Book_of_Abstracts.docx" from rfl]
    by_cases h : 3 ≤ argv.length
    · have hb : 2 < argv.length := by omega
      rw [if_pos h, dif_pos h, List.getD_eq_getElem?_getD,
        List.getElem?_eq_getElem hb]
      simp [List.get_eq_getElem]
    · rw [if_neg h, dif_neg h]
  · rw [show (parseArgs argv).track_title
      = if 4 ≤ argv.length then argv.getD 3 "FAE" else "FAE" from rfl]
    by_cases h : 4 ≤ argv.length
    · have hb : 3 < argv.length := by omega
      rw [if_pos h, dif_pos h, List.getD_eq_getElem?_getD,
        List.getElem?_eq_getElem hb]
      simp [List.get_eq_getElem]
    · rw [if_neg h, dif_neg h]

/-- Witness for C9: a full argument vector and a bare program name. -/
theorem parseArgs_positional_witness :
    (parseArgs ["prog", "in.xlsx", "out.docx", "Track9"]).input_file = "in.xlsx"
  ∧ (parseArgs ["prog", "in.xlsx", "out.docx", "Track9"]).output_file = "out.docx"
  ∧ (parseArgs ["prog", "in.xlsx", "out.docx", "Track9"]).track_title = "Track9"
  ∧ (parseArgs ["prog"]).input_file = "IMRC2025_submissions.xlsx"
  ∧ (parseArgs ["prog"]).output_file = "IMRC2025_Book_of_Abstracts.docx"
  ∧ (parseArgs ["prog"]).track_title = "FAE" := by
  have h4 := parseArgs_positional ["prog", "in.xlsx", "out.docx", "Track9"]
  have h1 := parseArgs_positional ["prog"]
  refine ⟨?_, ?_, ?_, ?_, ?_, ?_⟩
  · rw [h4.1]; rfl
  · rw [h4.2.1]; rfl
  · rw [h4.2.2]; rfl
  · rw [h1.1]; rfl
  · rw [h1.2.1]; rfl
  · rw [h1.2.2]; rfl
